import Mathlib

/-!
Verification of the attribute-resolution core of the Vibe-Fusion
clothing-recommendation system.  The Python source is shallowly embedded:
dictionaries become association lists over a `Value` type mirroring the
dynamic values the code manipulates (strings, numbers, lists of strings,
booleans, `None`), and each Python function of interest becomes a Lean
function with the same control flow.
-/

set_option maxHeartbeats 1000000

namespace VibeFusion

/-- Dynamic Python value as used for attribute values in the repository:
a string, a number, a list of strings, a boolean, or `None`. -/
inductive Value where
  | str : String → Value
  | num : ℚ → Value
  | list : List String → Value
  | bool : Bool → Value
  | null : Value
  deriving DecidableEq, Repr

/-- Python truthiness (`if value:`) for the `Value` type: empty strings,
zero, empty lists, `False` and `None` are falsy. -/
def truthy : Value → Bool
  | .str s => s ≠ ""
  | .num q => q ≠ 0
  | .list l => ¬ l.isEmpty
  | .bool b => b
  | .null => false

/-- A Python `dict` with string keys, embedded as an association list in
insertion order (the order `dict` iteration exposes). -/
abbrev AttrMap := List (String × Value)

/-! String helpers.  The Python methods `str.lower`, `str.strip`,
`str.startswith`, the `in` substring test and decimal parsing are
re-implemented structurally over character lists so that every definition
evaluates by reduction. -/

/-- Python `str.lower()` (ASCII range, which covers all keys in the
repository). -/
def toLowerStr (s : String) : String := ⟨s.data.map Char.toLower⟩

/-- Python `str.strip()`: drop whitespace from both ends. -/
def trimStr (s : String) : String :=
  ⟨((s.data.dropWhile Char.isWhitespace).reverse.dropWhile
      Char.isWhitespace).reverse⟩

/-- The first list is an initial segment of the second. -/
def pfxMatch : List Char → List Char → Bool
  | [], _ => true
  | _ :: _, [] => false
  | c :: cs, d :: ds => c = d && pfxMatch cs ds

/-- The first list occurs contiguously somewhere in the second. -/
def subMatch (needle : List Char) : List Char → Bool
  | [] => pfxMatch needle []
  | d :: rest => pfxMatch needle (d :: rest) || subMatch needle rest

/-- Python substring test `needle in hay`. -/
def pyContains (hay needle : String) : Bool :=
  subMatch needle.data hay.data

/-- Split a character list at every occurrence of a separator
character. -/
def splitOnChar (c : Char) : List Char → List (List Char)
  | [] => [[]]
  | d :: rest =>
      if d = c then [] :: splitOnChar c rest
      else
        match splitOnChar c rest with
        | [] => [[d]]
        | h :: t => (d :: h) :: t

/-- Dictionary read `d.get(k)` / `d[k]`: the value at the first (unique in a
real dict) occurrence of the key. -/
def getV {α : Type} : List (String × α) → String → Option α
  | [], _ => none
  | (k', v) :: rest, k => if k' = k then some v else getV rest k

/-- Dictionary write `d[k] = v`: update the entry in place when the key is
present, append it otherwise. -/
def setKey {α : Type} : List (String × α) → String → α → List (String × α)
  | [], k, v => [(k, v)]
  | (k', v') :: rest, k, v =>
      if k' = k then (k', v) :: rest else (k', v') :: setKey rest k v

/-- The keys of a dict, in iteration order. -/
def keysOf {α : Type} (m : List (String × α)) : List String := m.map Prod.fst

/-- A dict has no duplicate keys; inputs that model real Python dicts
satisfy this. -/
abbrev NodupKeys {α : Type} (m : List (String × α)) : Prop := (keysOf m).Nodup

/-- One overwrite pass of `_merge_all_attributes`
(src/recommendation_system.py:177-195): `for key, value in src.items():
if value: merged[key] = value`. -/
def applyTruthy (acc : AttrMap) (src : AttrMap) : AttrMap :=
  src.foldl (fun m kv => if truthy kv.2 then setKey m kv.1 kv.2 else m) acc

/-- `_merge_all_attributes(extracted, rule_based, gpt_inferred, user_prefs)`
(src/recommendation_system.py:166-197): start from the empty dict and
overwrite with truthy values from `extracted`, then `gpt_inferred`, then
`rule_based`, then `user_prefs`. -/
def mergeAllAttributes (extracted ruleBased gptInferred userPrefs : AttrMap) :
    AttrMap :=
  applyTruthy (applyTruthy (applyTruthy (applyTruthy [] extracted) gptInferred)
    ruleBased) userPrefs

/-- Lookup restricted to truthy values: the value a source tier actually
contributes for a key during fusion. -/
def truthyLookup (m : AttrMap) (k : String) : Option Value :=
  match getV m k with
  | some v => if truthy v then some v else none
  | none => none

/-- The priority ladder the specification describes for fusion, written
directly from the spec's words: `userPreference > ruleBased > inferred >
extracted`, where a tier contributes only non-empty (truthy) values. -/
def priorityResolve (extracted ruleBased gptInferred userPrefs : AttrMap)
    (k : String) : Option Value :=
  match truthyLookup userPrefs k with
  | some v => some v
  | none =>
    match truthyLookup ruleBased k with
    | some v => some v
    | none =>
      match truthyLookup gptInferred k with
      | some v => some v
      | none => truthyLookup extracted k

/-! Completeness checker and clarification questions
(src/recommendation_system.py). -/

/-- Criterion of `_check_missing_attributes`
(src/recommendation_system.py:209): `attr not in attributes or not value`. -/
def isMissingAttr (attributes : AttrMap) (attr : String) : Bool :=
  match getV attributes attr with
  | none => true
  | some v => !truthy v

/-- The key is present with a truthy value:
`attr in attributes and attributes[attr]`. -/
def truthyAt (attributes : AttrMap) (attr : String) : Bool :=
  match getV attributes attr with
  | none => false
  | some v => truthy v

/-- `_check_missing_attributes` (src/recommendation_system.py:199-222):
collect absent-or-falsy critical attributes, then, when all three critical
keys are present, append the marker `"occasion or style"` if no context
attribute is present with a truthy value. -/
def checkMissingAttributes (attributes : AttrMap) : List String :=
  let critical := ["category", "size", "budget"]
  let missing := critical.foldl
    (fun acc attr => if isMissingAttr attributes attr then acc ++ [attr]
      else acc) []
  if "category" ∈ keysOf attributes ∧ "size" ∈ keysOf attributes ∧
      "budget" ∈ keysOf attributes then
    let contextAttributes := ["occasion", "season", "style", "fit"]
    let hasContext := contextAttributes.any (fun attr => truthyAt attributes attr)
    if ¬ hasContext then missing ++ ["occasion or style"] else missing
  else missing

/-- The fixed question-template table of `_generate_follow_up_questions`
(src/recommendation_system.py:235-243), with the f-string joins written
out. -/
def questionTemplates : List (String × String) :=
  [("category", "What type of clothing are you looking for? Choose from: dress, top, pants, skirt, jacket, shirt, blouse"),
   ("size", "What size do you need? Available sizes: XS, S, M, L, XL, XXL"),
   ("budget", "What\x27s your budget? You can say something like \x27$50\x27, \x27under $100\x27, or \x27200 dollars\x27"),
   ("occasion", "What\x27s the occasion? For example: casual, formal, work, party, date, wedding"),
   ("season", "What season is this for? (spring, summer, fall, winter)"),
   ("style", "What style are you going for? Options include: casual, formal, chic, bohemian, minimalist, edgy"),
   ("fit", "How would you like it to fit? Choose from: relaxed, tailored, loose, fitted")]

/-- Combined template for the compound `"occasion or style"` marker
(src/recommendation_system.py:250). -/
def occasionOrStyleQuestion : String :=
  "Tell me about the occasion or style! For example: casual, formal, work, party or casual, formal, chic, bohemian"

/-- One iteration of the question-generation loop
(src/recommendation_system.py:245-252). -/
def followUpStep (questions : List String) (attr : String) : List String :=
  match getV questionTemplates attr with
  | some q => questions ++ [q]
  | none =>
    if pyContains attr "or" then
      if pyContains attr "occasion" then questions ++ [occasionOrStyleQuestion]
      else questions ++
        ["Could you tell me more about the " ++ attr ++ "? Give me some details!"]
    else questions

/-- `_generate_follow_up_questions`
(src/recommendation_system.py:224-254). -/
def generateFollowUpQuestions (missingAttributes : List String) :
    List String :=
  missingAttributes.foldl followUpStep []

/-- The question the spec's template table associates to a missing key;
the compound marker maps to the combined template. -/
def templateFor (attr : String) : String :=
  match getV questionTemplates attr with
  | some q => q
  | none => occasionOrStyleQuestion

/-- Outcome of one resolution turn, restricted to the fields the claims
are about. -/
structure TurnResult where
  success : Bool
  message : Option String
  missingAttributes : List String
  suggestedQuestions : List String
  forwardedToCatalog : Bool
  deriving DecidableEq, Repr

/-- Steps 5-6 of `get_recommendations`
(src/recommendation_system.py:110-136): when the missing list is
non-empty, return the NEEDS_INFO payload (first question as message, full
list as `suggested_questions`); otherwise forward the resolved set to the
catalog filter. -/
def resolveTurn (finalAttributes : AttrMap) : TurnResult :=
  let missing := checkMissingAttributes finalAttributes
  if missing.isEmpty then
    { success := true, message := none, missingAttributes := [],
      suggestedQuestions := [], forwardedToCatalog := true }
  else
    let questions := generateFollowUpQuestions missing
    { success := false,
      message := some (questions.headD
        "I need more information to help you find the perfect clothing item."),
      missingAttributes := missing,
      suggestedQuestions := questions,
      forwardedToCatalog := false }

/-- Spec-side reading of the critical check: each critical attribute that
is absent or falsy, listed individually in the fixed order. -/
def criticalMissingSpec (m : AttrMap) : List String :=
  ["category", "size", "budget"].filter (fun a => !truthyAt m a)

/-- Spec-side reading of the context check: the synthetic marker appears
exactly when the three critical keys are present but no context attribute
is present with a truthy value. -/
def contextMarkerSpec (m : AttrMap) : List String :=
  if ("category" ∈ keysOf m ∧ "size" ∈ keysOf m ∧ "budget" ∈ keysOf m) ∧
      (["occasion", "season", "style", "fit"].all (fun a => !truthyAt m a))
  then ["occasion or style"] else []

/-! Similarity matcher (src/modules/similarity_matcher.py).  The spaCy
dense-similarity backend and the TF-IDF vector space are external numeric
oracles; they are embedded as score functions carried by the matcher
state. -/

/-- Result tuple of `_find_best_match_for_phrase`:
`(vibe_key, similarity_score, mapping_type, attributes)`. -/
structure MatchResult where
  vibeKey : String
  score : ℚ
  mappingType : String
  attributes : AttrMap
  deriving DecidableEq, Repr

/-- State of a loaded `SimilarityMatcher`: the vibe keys, the
`key_to_mapping` table, whether the spaCy model is available, the dense
(spaCy) similarity scores, and the sorted TF-IDF similarity list
(`calculate_tfidf_similarity`). -/
structure Matcher where
  allVibeKeys : List String
  mappingTypeOf : String → String
  attributesOf : String → AttrMap
  nlpAvailable : Bool
  denseSim : String → String → ℚ
  tfidfMatches : String → List (String × ℚ)

/-- Method 1 of `_find_best_match_for_phrase`
(src/modules/similarity_matcher.py:210-214): first vibe key equal to the
lowered, stripped phrase under case-insensitive comparison. -/
def exactFind (keys : List String) (phraseLower : String) : Option String :=
  match keys with
  | [] => none
  | k :: rest =>
      if phraseLower = toLowerStr k then some k else exactFind rest phraseLower

/-- Loop body of method 2 (src/modules/similarity_matcher.py:218-223):
update the tracked best score and match when a strictly better spaCy
similarity appears. -/
def denseStep (m : Matcher) (phrase : String)
    (acc : ℚ × Option MatchResult) (k : String) : ℚ × Option MatchResult :=
  let similarity := m.denseSim phrase k
  if similarity > acc.1 then
    (similarity, some ⟨k, similarity, m.mappingTypeOf k, m.attributesOf k⟩)
  else acc

/-- Method 2 (src/modules/similarity_matcher.py:217-223): scan all vibe
keys, tracking the best spaCy score (seeded with 0.0) and its match. -/
def denseBestAux (m : Matcher) (phrase : String) : ℚ × Option MatchResult :=
  m.allVibeKeys.foldl (denseStep m phrase) (0, none)

/-- The dense-tier state actually reached: the fold runs only when the
spaCy model is available (`if self.nlp:`), otherwise the seed `(0, None)`
stands. -/
def denseTier (m : Matcher) (phrase : String) : ℚ × Option MatchResult :=
  if m.nlpAvailable then denseBestAux m phrase else ((0 : ℚ), none)

/-- `_find_best_match_for_phrase` (src/modules/similarity_matcher.py:
199-234): exact tier, then dense tier, then the TF-IDF tier consulted only
below 0.5, superseding only on a strictly greater top score. -/
def findBestMatchForPhrase (m : Matcher) (phrase : String) :
    Option MatchResult :=
  match exactFind m.allVibeKeys (trimStr (toLowerStr phrase)) with
  | some k => some ⟨k, 1, m.mappingTypeOf k, m.attributesOf k⟩
  | none =>
    let best := denseTier m phrase
    if best.1 < 1/2 then
      match m.tfidfMatches phrase with
      | [] => best.2
      | (topKey, topScore) :: _ =>
          if topScore > best.1 then
            some ⟨topKey, topScore, m.mappingTypeOf topKey,
              m.attributesOf topKey⟩
          else best.2
    else best.2

/-- Candidate list of `find_best_matches`
(src/modules/similarity_matcher.py:151-157): the extracted phrases plus
every individual attribute value that is a truthy string. -/
def candidatesOf (extractedPhrases : List String)
    (individualAttributes : AttrMap) : List String :=
  extractedPhrases ++ individualAttributes.filterMap
    (fun kv => match kv.2 with
      | .str s => if s = "" then none else some s
      | _ => none)

/-- A candidate survives the guard
`if not candidate or len(candidate.strip()) < 2: continue`. -/
def validCandidate (c : String) : Bool :=
  !(c = "" || (trimStr c).length < 2)

/-- One attribute of the merging inner loop of `find_best_matches`
(src/modules/similarity_matcher.py:180-188): insert an unseen key, or
overwrite a seen one when the new confidence is strictly higher. -/
def mergeStep (score : ℚ) (st : AttrMap × List (String × ℚ))
    (kv : String × Value) : AttrMap × List (String × ℚ) :=
  match getV st.1 kv.1 with
  | none => (setKey st.1 kv.1 kv.2, setKey st.2 kv.1 score)
  | some _ =>
      if (getV st.2 kv.1).getD 0 < score then
        (setKey st.1 kv.1 kv.2, setKey st.2 kv.1 score)
      else st

/-- Attribute-merging inner loop of `find_best_matches`
(src/modules/similarity_matcher.py:179-188), threading the pair
`(matched_attributes, confidence_scores)`. -/
def mergeMatched (score : ℚ) (attributes : AttrMap)
    (st : AttrMap × List (String × ℚ)) : AttrMap × List (String × ℚ) :=
  attributes.foldl (mergeStep score) st

/-- Per-candidate body of the `find_best_matches` loop
(src/modules/similarity_matcher.py:160-188). -/
def processCandidate (m : Matcher) (threshold : ℚ)
    (st : AttrMap × List (String × ℚ)) (candidate : String) :
    AttrMap × List (String × ℚ) :=
  if !validCandidate candidate then st
  else
    match findBestMatchForPhrase m candidate with
    | none => st
    | some r =>
        if r.score ≥ threshold then mergeMatched r.score r.attributes st
        else st

/-- Return value of `find_best_matches`. -/
structure SimilarityOutcome where
  matchedAttributes : AttrMap
  confidenceScores : List (String × ℚ)
  hasHighConfidenceMatches : Bool

/-- `find_best_matches` (src/modules/similarity_matcher.py:131-197) with
the configured `similarity_threshold` passed explicitly. -/
def findBestMatches (m : Matcher) (threshold : ℚ)
    (extractedPhrases : List String) (individualAttributes : AttrMap) :
    SimilarityOutcome :=
  let st := (candidatesOf extractedPhrases individualAttributes).foldl
    (processCandidate m threshold) ([], [])
  { matchedAttributes := st.1,
    confidenceScores := st.2,
    hasHighConfidenceMatches :=
      st.2.any (fun kv => kv.2 ≥ threshold) }

/-- The step-3 gate of `get_recommendations`
(src/recommendation_system.py:84): the GPT oracle is invoked when
`not has_high_confidence or len(rule_based_attributes) < 3`. -/
def gptInvoked (o : SimilarityOutcome) : Bool :=
  !o.hasHighConfidenceMatches || o.matchedAttributes.length < 3

/-- A candidate produced a match at or above the acceptance threshold:
the condition the spec describes for skipping the oracle. -/
def acceptedMatchExists (m : Matcher) (threshold : ℚ)
    (extractedPhrases : List String) (individualAttributes : AttrMap) :
    Prop :=
  ∃ c ∈ candidatesOf extractedPhrases individualAttributes,
    validCandidate c = true ∧
    ∃ r, findBestMatchForPhrase m c = some r ∧ threshold ≤ r.score

/-- Invariant threaded through the `find_best_matches` loop:
`matched_attributes` and `confidence_scores` always hold the same keys,
every recorded confidence is at least the acceptance threshold, and a
non-empty confidence table implies the proposition `A` (instantiated with
"some candidate matched at or above threshold"). -/
def MatchInv (t : ℚ) (A : Prop) (st : AttrMap × List (String × ℚ)) :
    Prop :=
  keysOf st.1 = keysOf st.2 ∧
  (∀ kv ∈ st.2, t ≤ kv.2) ∧
  (st.2 ≠ [] → A)

/-! GPT inference validation (src/modules/gpt_inference.py). -/

/-- `self.category_attributes` (src/modules/gpt_inference.py:35-40). -/
def categoryAttributes : List (String × List String) :=
  [("top", ["fit", "fabric", "sleeve_length", "color_or_print"]),
   ("dress", ["fit", "fabric", "sleeve_length", "color_or_print",
     "occasion", "neckline"]),
   ("skirt", ["fabric", "color_or_print", "length"]),
   ("pants", ["fit", "fabric", "color_or_print", "pant_type"])]

/-- `self.valid_values` (src/modules/gpt_inference.py:43-52). -/
def validValues : List (String × List String) :=
  [("category", ["top", "dress", "skirt", "pants"]),
   ("fit", ["Relaxed", "Stretch to fit", "Body hugging", "Tailored",
     "Oversized", "Flowy", "Bodycon", "Slim", "Sleek and straight"]),
   ("fabric", ["Linen", "Silk", "Cotton", "Rayon", "Satin", "Modal jersey",
     "Crepe", "Tencel", "Chambray", "Velvet", "Chiffon", "Denim",
     "Wool-blend", "Sequined velvet", "Tulle", "Organic cotton", "Viscose",
     "Cotton poplin", "Linen blend", "Cotton gauze", "Ribbed jersey",
     "Lace overlay", "Tencel twill"]),
   ("sleeve_length", ["Sleeveless", "Spaghetti straps", "Straps",
     "Short sleeves", "Short flutter sleeves", "Cap sleeves",
     "Quarter sleeves", "Long sleeves", "Full sleeves", "Cropped",
     "Bishop sleeves", "Balloon sleeves", "Bell sleeves", "Halter", "Tube",
     "One-shoulder"]),
   ("neckline", ["V neck", "Sweetheart", "Square neck", "Boat neck",
     "Tubetop", "Halter", "Cowl neck", "Collar", "One-shoulder",
     "Polo collar", "Illusion bateau", "Round neck"]),
   ("length", ["Mini", "Short", "Midi", "Maxi"]),
   ("pant_type", ["Wide-legged", "Ankle length", "Flared", "Wide hem",
     "Straight ankle", "Mid-rise", "Low-rise"]),
   ("occasion", ["Party", "Vacation", "Everyday", "Evening", "Work",
     "Vocation"])]

/-- `attributes.get('category', '').lower()`
(src/modules/gpt_inference.py:182): `.lower()` raises on a non-string
category, which the caller converts to "no inferred attributes", so the
embedding returns `none` there. -/
def activeCategory (attributes : AttrMap) : Option String :=
  match getV attributes "category" with
  | none => some ""
  | some (.str s) => some (toLowerStr s)
  | some _ => none

/-- Per-entry body of the `_validate_attributes` loop
(src/modules/gpt_inference.py:185-208). -/
def validateStep (validAttrs : List String) (validated : AttrMap)
    (kv : String × Value) : AttrMap :=
  let attrLower := toLowerStr kv.1
  if attrLower ≠ "category" ∧ attrLower ∉ validAttrs then validated
  else
    match getV validValues attrLower with
    | some table =>
        match kv.2 with
        | .list items =>
            let validatedList := items.filter (fun item => item ∈ table)
            if ¬ validatedList.isEmpty then
              setKey validated kv.1 (.list validatedList)
            else validated
        | .str s =>
            if s ∈ table then setKey validated kv.1 (.str s) else validated
        | _ => validated
    | none => setKey validated kv.1 kv.2

/-- `_validate_attributes` (src/modules/gpt_inference.py:177-210); `none`
models the exception path (non-string category) that `infer_attributes`
turns into "no attributes". -/
def validateAttributes (attributes : AttrMap) : Option AttrMap :=
  match activeCategory attributes with
  | none => none
  | some category =>
      let validAttrs := (getV categoryAttributes category).getD []
      some (attributes.foldl (validateStep validAttrs) [])

/-- Spec-side reading of the per-entry validation rule, to compare with
the loop: what happens to the entry at a given key. -/
def validateEntrySpec (validAttrs : List String) (k : String) :
    Option Value → Option Value
  | none => none
  | some v =>
      if toLowerStr k ≠ "category" ∧ toLowerStr k ∉ validAttrs then none
      else
        match getV validValues (toLowerStr k) with
        | some table =>
            match v with
            | .list items =>
                let kept := items.filter (fun item => item ∈ table)
                if ¬ kept.isEmpty then some (.list kept) else none
            | .str s => if s ∈ table then some (.str s) else none
            | _ => none
        | none => some v

/-! Catalog budget filtering (src/modules/catalog_filter.py). -/

/-- Digits of a decimal literal folded to a natural number. -/
def digitsToNat (s : List Char) : Nat :=
  s.foldl (fun n c => n * 10 + (c.toNat - Char.toNat '0')) 0

/-- Python `float(...)` on a string, restricted to plain decimal literals
(optional sign, digits, optional fractional part); anything else fails. -/
def parseDecimal (s : String) : Option ℚ :=
  let t := (trimStr s).data
  let su : Bool × List Char :=
    match t with
    | '-' :: rest => (true, rest)
    | '+' :: rest => (false, rest)
    | _ => (false, t)
  match splitOnChar '.' su.2 with
  | [ip] =>
      if ip ≠ [] ∧ ip.all Char.isDigit then
        let v : ℚ := digitsToNat ip
        some (if su.1 then -v else v)
      else none
  | [ip, fp] =>
      if (ip ≠ [] ∨ fp ≠ []) ∧ ip.all Char.isDigit ∧
          fp.all Char.isDigit then
        let v : ℚ := digitsToNat ip +
          (digitsToNat fp : ℚ) / (10 ^ fp.length)
        some (if su.1 then -v else v)
      else none
  | _ => none

/-- Python `float(value)` over the dynamic value type: numbers and
booleans coerce, decimal strings parse, lists and `None` raise
(`TypeError`), non-numeric strings raise (`ValueError`). -/
def pyFloat : Value → Option ℚ
  | .num q => some q
  | .bool b => some (if b then 1 else 0)
  | .str s => parseDecimal s
  | .list _ => none
  | .null => none

/-- A catalog row, reduced to the price column the budget filter reads. -/
structure Product where
  price : ℚ
  deriving DecidableEq, Repr

/-- The budget step of `filter_products`
(src/modules/catalog_filter.py:79-84): when a truthy budget is present,
try `float(...)`; on success keep rows with `price <= budget`, on failure
(`except (ValueError, TypeError): pass`) leave the rows untouched. -/
def applyBudgetFilter (attributes : AttrMap) (rows : List Product) :
    List Product :=
  match getV attributes "budget" with
  | some v =>
      if truthy v then
        match pyFloat v with
        | some budget => rows.filter (fun p => p.price ≤ budget)
        | none => rows
      else rows
  | none => rows

/-! Basic association-list lemmas. -/

theorem getV_setKey_self {α : Type} (m : List (String × α)) (k : String)
    (v : α) : getV (setKey m k v) k = some v := by
  induction m with
  | nil => simp [setKey, getV]
  | cons kv rest ih =>
      obtain ⟨k', v'⟩ := kv
      by_cases h : k' = k
      · simp [setKey, getV, h]
      · simp [setKey, getV, h, ih]

theorem getV_setKey_ne {α : Type} (m : List (String × α)) (k k' : String)
    (v : α) (h : k' ≠ k) : getV (setKey m k' v) k = getV m k := by
  induction m with
  | nil => simp [setKey, getV, h]
  | cons kv rest ih =>
      obtain ⟨k₀, v₀⟩ := kv
      by_cases h₀ : k₀ = k'
      · subst h₀
        simp [setKey, getV, h]
      · by_cases h₁ : k₀ = k
        · subst h₁
          simp [setKey, getV, h₀]
        · simp [setKey, getV, h₀, h₁, ih]

theorem mem_keysOf_setKey {α : Type} (m : List (String × α)) (k k' : String)
    (v : α) : k' ∈ keysOf (setKey m k v) ↔ k' ∈ keysOf m ∨ k' = k := by
  induction m with
  | nil => simp [setKey, keysOf]
  | cons kv rest ih =>
      obtain ⟨k₀, v₀⟩ := kv
      by_cases h : k₀ = k
      · subst h
        rw [show setKey ((k₀, v₀) :: rest) k₀ v = (k₀, v) :: rest by
          simp [setKey]]
        simp only [keysOf, List.map_cons, List.mem_cons]
        tauto
      · rw [show setKey ((k₀, v₀) :: rest) k v = (k₀, v₀) :: setKey rest k v by
          simp [setKey, h]]
        simp only [keysOf, List.map_cons, List.mem_cons]
        have := ih
        simp only [keysOf] at this
        rw [this]
        tauto

theorem getV_eq_none_iff {α : Type} (m : List (String × α)) (k : String) :
    getV m k = none ↔ k ∉ keysOf m := by
  induction m with
  | nil => simp [getV, keysOf]
  | cons kv rest ih =>
      obtain ⟨k₀, v₀⟩ := kv
      by_cases h : k₀ = k
      · subst h; simp [getV, keysOf]
      · simp [getV, keysOf, h, ih, Ne.symm h]

theorem getV_isSome_of_mem {α : Type} (m : List (String × α)) (k : String)
    (h : k ∈ keysOf m) : ∃ v, getV m k = some v := by
  rcases hv : getV m k with _ | v
  · exact absurd h ((getV_eq_none_iff m k).1 hv)
  · exact ⟨v, rfl⟩

/-! Fusion lemmas: how a single overwrite pass affects lookups. -/

theorem truthyLookup_cons_self (k : String) (v : Value) (rest : AttrMap) :
    truthyLookup ((k, v) :: rest) k =
      if truthy v = true then some v else none := by
  simp [truthyLookup, getV]

theorem truthyLookup_cons_ne (k₀ k : String) (v : Value) (rest : AttrMap)
    (h : k₀ ≠ k) : truthyLookup ((k₀, v) :: rest) k = truthyLookup rest k := by
  simp [truthyLookup, getV, h]

theorem truthyLookup_eq_none_of_getV_none (m : AttrMap) (k : String)
    (h : getV m k = none) : truthyLookup m k = none := by
  simp [truthyLookup, h]

theorem getV_applyTruthy (src : AttrMap) (hsrc : NodupKeys src)
    (acc : AttrMap) (k : String) :
    getV (applyTruthy acc src) k =
      match truthyLookup src k with
      | some v => some v
      | none => getV acc k := by
  induction src generalizing acc with
  | nil => simp [applyTruthy, truthyLookup, getV]
  | cons kv rest ih =>
      obtain ⟨k₀, v₀⟩ := kv
      have hrest : NodupKeys rest := by
        simpa [NodupKeys, keysOf] using (List.nodup_cons.1 hsrc).2
      have hstep : applyTruthy acc ((k₀, v₀) :: rest) =
          applyTruthy (if truthy v₀ then setKey acc k₀ v₀ else acc) rest := by
        simp [applyTruthy]
      rw [hstep, ih hrest]
      by_cases hk : k₀ = k
      · subst hk
        have hnot : getV rest k₀ = none := by
          rw [getV_eq_none_iff]
          have := (List.nodup_cons.1 hsrc).1
          simpa [keysOf] using this
        rw [truthyLookup_cons_self,
          truthyLookup_eq_none_of_getV_none rest k₀ hnot]
        by_cases ht : truthy v₀ = true
        · rw [if_pos ht, if_pos ht, getV_setKey_self]
        · rw [if_neg ht, if_neg ht]
      · rw [truthyLookup_cons_ne k₀ k v₀ rest hk]
        rcases hr : truthyLookup rest k with _ | v
        · by_cases ht : truthy v₀ = true
          · rw [if_pos ht, getV_setKey_ne acc k k₀ v₀ hk]
          · rw [if_neg ht]
        · rfl

/-- A value can appear at a key after an overwrite pass only if the source
holds a truthy entry at that key or it was already there (no nodup
assumption needed). -/
theorem getV_applyTruthy_source (src acc : AttrMap) (k : String) (v : Value)
    (h : getV (applyTruthy acc src) k = some v) :
    (∃ w, (k, w) ∈ src ∧ truthy w = true) ∨ getV acc k = some v := by
  induction src generalizing acc with
  | nil => exact Or.inr h
  | cons kv rest ih =>
      obtain ⟨k₀, v₀⟩ := kv
      have hstep : applyTruthy acc ((k₀, v₀) :: rest) =
          applyTruthy (if truthy v₀ then setKey acc k₀ v₀ else acc) rest := by
        simp [applyTruthy]
      rw [hstep] at h
      rcases ih _ h with h' | h'
      · obtain ⟨w, hw, hwt⟩ := h'
        exact Or.inl ⟨w, List.mem_cons_of_mem _ hw, hwt⟩
      · by_cases ht : truthy v₀
        · rw [if_pos ht] at h'
          by_cases hk : k₀ = k
          · subst hk
            exact Or.inl ⟨v₀, List.mem_cons_self _ _, ht⟩
          · rw [getV_setKey_ne acc k k₀ v₀ hk] at h'
            exact Or.inr h'
        · rw [if_neg ht] at h'
          exact Or.inr h'

/-- Every value stored by an overwrite pass is truthy, provided the
accumulator already satisfies that invariant. -/
theorem applyTruthy_all_truthy (src acc : AttrMap)
    (hacc : ∀ kv ∈ acc, truthy kv.2 = true) :
    ∀ kv ∈ applyTruthy acc src, truthy kv.2 = true := by
  induction src generalizing acc with
  | nil => exact hacc
  | cons kv rest ih =>
      obtain ⟨k₀, v₀⟩ := kv
      have hstep : applyTruthy acc ((k₀, v₀) :: rest) =
          applyTruthy (if truthy v₀ then setKey acc k₀ v₀ else acc) rest := by
        simp [applyTruthy]
      rw [hstep]
      refine ih _ ?_
      by_cases ht : truthy v₀
      · rw [if_pos ht]
        intro kv hkv
        clear hstep ih
        induction acc with
        | nil =>
            simp only [setKey, List.mem_singleton] at hkv
            subst hkv; exact ht
        | cons kv₁ rest₁ ih₁ =>
            obtain ⟨k₁, v₁⟩ := kv₁
            by_cases h₁ : k₁ = k₀
            · rw [show setKey ((k₁, v₁) :: rest₁) k₀ v₀ =
                (k₁, v₀) :: rest₁ by simp [setKey, h₁]] at hkv
              rcases List.mem_cons.1 hkv with h | h
              · subst h; exact ht
              · exact hacc kv (List.mem_cons_of_mem _ h)
            · rw [show setKey ((k₁, v₁) :: rest₁) k₀ v₀ =
                (k₁, v₁) :: setKey rest₁ k₀ v₀ by simp [setKey, h₁]] at hkv
              rcases List.mem_cons.1 hkv with h | h
              · subst h; exact hacc (k₁, v₁) (List.mem_cons_self _ _)
              · exact ih₁ (fun kv h' => hacc kv (List.mem_cons_of_mem _ h')) h
      · rw [if_neg ht]; exact hacc

theorem getV_mem {α : Type} (m : List (String × α)) (k : String) (v : α)
    (h : getV m k = some v) : (k, v) ∈ m := by
  induction m with
  | nil => simp [getV] at h
  | cons kv rest ih =>
      obtain ⟨k₀, v₀⟩ := kv
      simp only [getV] at h
      by_cases hk : k₀ = k
      · rw [if_pos hk] at h
        injection h with h
        subst hk; subst h
        exact List.mem_cons_self _ _
      · rw [if_neg hk] at h
        exact List.mem_cons_of_mem _ (ih h)

/-- Full characterisation of fusion: the merged value at any key follows
the strict priority ladder `userPrefs > ruleBased > gptInferred >
extracted`, each tier contributing only truthy values. -/
theorem getV_mergeAllAttributes (extracted ruleBased gptInferred userPrefs :
    AttrMap) (he : NodupKeys extracted) (hg : NodupKeys gptInferred)
    (hr : NodupKeys ruleBased) (hu : NodupKeys userPrefs) (k : String) :
    getV (mergeAllAttributes extracted ruleBased gptInferred userPrefs) k =
      priorityResolve extracted ruleBased gptInferred userPrefs k := by
  unfold mergeAllAttributes priorityResolve
  rw [getV_applyTruthy userPrefs hu, getV_applyTruthy ruleBased hr,
    getV_applyTruthy gptInferred hg, getV_applyTruthy extracted he]
  rcases truthyLookup userPrefs k with _ | v
  · rcases truthyLookup ruleBased k with _ | v
    · rcases truthyLookup gptInferred k with _ | v
      · rcases h : truthyLookup extracted k with _ | v
        · simp [getV]
        · simp
      · simp
    · simp
  · simp

/-! Completeness-checker lemmas. -/

theorem foldl_append_filter {α : Type} (l : List α) (p : α → Bool)
    (init : List α) :
    l.foldl (fun acc a => if p a then acc ++ [a] else acc) init =
      init ++ l.filter p := by
  induction l generalizing init with
  | nil => simp
  | cons a l ih =>
      simp only [List.foldl_cons, List.filter_cons]
      by_cases h : p a
      · rw [if_pos h, if_pos h, ih, List.append_assoc, List.singleton_append]
      · rw [if_neg h, if_neg h, ih]

theorem isMissingAttr_eq_not_truthyAt (m : AttrMap) :
    isMissingAttr m = fun a => !truthyAt m a := by
  funext a
  unfold isMissingAttr truthyAt
  rcases getV m a with _ | v <;> rfl

theorem checkMissingAttributes_eq (m : AttrMap) :
    checkMissingAttributes m = criticalMissingSpec m ++ contextMarkerSpec m := by
  unfold checkMissingAttributes criticalMissingSpec contextMarkerSpec
  dsimp only
  rw [foldl_append_filter, List.nil_append, isMissingAttr_eq_not_truthyAt]
  by_cases hA : "category" ∈ keysOf m ∧ "size" ∈ keysOf m ∧
      "budget" ∈ keysOf m
  · rw [if_pos hA]
    by_cases hC : (["occasion", "season", "style", "fit"].any
        (fun attr => truthyAt m attr)) = true
    · rcases List.any_eq_true.1 hC with ⟨a, ha, hta⟩
      rw [if_neg (by simp [hC]), if_neg (fun hcon => by
        have := List.all_eq_true.1 hcon.2 a ha
        simp [hta] at this), List.append_nil]
    · have hall : (["occasion", "season", "style", "fit"].all
          (fun a => !truthyAt m a)) = true := by
        refine List.all_eq_true.2 ?_
        intro a ha
        simp only [List.any_eq_true] at hC
        push_neg at hC
        simpa using hC a ha
      rw [if_pos (by simp [hC]), if_pos ⟨hA, hall⟩]
  · rw [if_neg hA, if_neg (fun hcon => hA hcon.1), List.append_nil]

theorem mem_checkMissingAttributes (m : AttrMap) (x : String)
    (hx : x ∈ checkMissingAttributes m) :
    x = "category" ∨ x = "size" ∨ x = "budget" ∨ x = "occasion or style" := by
  rw [checkMissingAttributes_eq] at hx
  rcases List.mem_append.1 hx with h | h
  · have h3 := List.mem_of_mem_filter h
    simp only [List.mem_cons, List.mem_singleton, List.not_mem_nil,
      or_false] at h3
    tauto
  · unfold contextMarkerSpec at h
    by_cases hc : ("category" ∈ keysOf m ∧ "size" ∈ keysOf m ∧
        "budget" ∈ keysOf m) ∧ (["occasion", "season", "style", "fit"].all
        (fun a => !truthyAt m a)) = true
    · rw [if_pos hc] at h
      simp only [List.mem_singleton] at h
      tauto
    · rw [if_neg hc] at h
      simp at h

theorem followUpStep_template (qs : List String) (a : String)
    (ha : a = "category" ∨ a = "size" ∨ a = "budget" ∨
      a = "occasion or style") :
    followUpStep qs a = qs ++ [templateFor a] := by
  rcases ha with h | h | h | h <;> subst h <;> rfl

theorem generateFollowUpQuestions_eq_map (l : List String)
    (hl : ∀ x ∈ l, x = "category" ∨ x = "size" ∨ x = "budget" ∨
      x = "occasion or style") :
    generateFollowUpQuestions l = l.map templateFor := by
  unfold generateFollowUpQuestions
  suffices h : ∀ init, l.foldl followUpStep init = init ++ l.map templateFor by
    simpa using h []
  induction l with
  | nil => intro init; simp
  | cons a l ih =>
      intro init
      have ha := hl a (List.mem_cons_self _ _)
      rw [List.foldl_cons, followUpStep_template init a ha,
        ih (fun x hx => hl x (List.mem_cons_of_mem _ hx)),
        List.map_cons, List.append_assoc, List.singleton_append]

/-! Similarity-matcher lemmas. -/

theorem exactFind_some (keys : List String) (p : String) (k : String)
    (h : exactFind keys p = some k) : p = toLowerStr k ∧ k ∈ keys := by
  induction keys with
  | nil => simp [exactFind] at h
  | cons k₀ rest ih =>
      simp only [exactFind] at h
      by_cases h₀ : p = toLowerStr k₀
      · rw [if_pos h₀] at h
        injection h with h
        subst h
        exact ⟨h₀, List.mem_cons_self _ _⟩
      · rw [if_neg h₀] at h
        rcases ih h with ⟨h₁, h₂⟩
        exact ⟨h₁, List.mem_cons_of_mem _ h₂⟩

theorem exactFind_exists (keys : List String) (p : String) (k : String)
    (hk : k ∈ keys) (hp : p = toLowerStr k) :
    ∃ k', exactFind keys p = some k' := by
  induction keys with
  | nil => simp at hk
  | cons k₀ rest ih =>
      simp only [exactFind]
      by_cases h₀ : p = toLowerStr k₀
      · exact ⟨k₀, by rw [if_pos h₀]⟩
      · rcases List.mem_cons.1 hk with h | h
        · subst h; exact absurd hp h₀
        · rcases ih h with ⟨k', hk'⟩
          exact ⟨k', by rw [if_neg h₀]; exact hk'⟩

theorem denseStep_fold_score (m : Matcher) (phrase : String)
    (keys : List String) (init : ℚ × Option MatchResult)
    (hinit : ∀ r, init.2 = some r → r.score = init.1) :
    ∀ r, (keys.foldl (denseStep m phrase) init).2 = some r →
      r.score = (keys.foldl (denseStep m phrase) init).1 := by
  induction keys generalizing init with
  | nil => exact hinit
  | cons k rest ih =>
      rw [List.foldl_cons]
      refine ih (denseStep m phrase init k) ?_
      intro r hr
      unfold denseStep at hr ⊢
      by_cases hgt : m.denseSim phrase k > init.1
      · rw [if_pos hgt] at hr ⊢
        injection hr with hr
        subst hr
        rfl
      · rw [if_neg hgt] at hr ⊢
        exact hinit r hr

theorem denseStep_fold_fst (m : Matcher) (phrase : String)
    (keys : List String) (init : ℚ × Option MatchResult) :
    (keys.foldl (denseStep m phrase) init).1 =
      (keys.map (m.denseSim phrase)).foldl max init.1 := by
  induction keys generalizing init with
  | nil => rfl
  | cons k rest ih =>
      rw [List.foldl_cons, List.map_cons, List.foldl_cons, ih]
      have hfst : (denseStep m phrase init k).1 =
          max init.1 (m.denseSim phrase k) := by
        unfold denseStep
        rcases lt_or_le init.1 (m.denseSim phrase k) with h | h
        · rw [if_pos h, max_eq_right h.le]
        · rw [if_neg (not_lt.2 h), max_eq_left h]
      rw [hfst]

theorem denseTier_score_eq (m : Matcher) (phrase : String) (r : MatchResult)
    (h : (denseTier m phrase).2 = some r) :
    r.score = (denseTier m phrase).1 := by
  unfold denseTier at h ⊢
  by_cases hn : m.nlpAvailable
  · rw [if_pos hn] at h ⊢
    exact denseStep_fold_score m phrase m.allVibeKeys (0, none)
      (fun r hr => by simp at hr) r h
  · rw [if_neg hn] at h
    simp at h

theorem findBest_exact_unfold (m : Matcher) (phrase k : String)
    (h : exactFind m.allVibeKeys (trimStr (toLowerStr phrase)) = some k) :
    findBestMatchForPhrase m phrase =
      some ⟨k, 1, m.mappingTypeOf k, m.attributesOf k⟩ := by
  unfold findBestMatchForPhrase
  rw [h]

theorem findBest_none_unfold (m : Matcher) (phrase : String)
    (h : exactFind m.allVibeKeys (trimStr (toLowerStr phrase)) = none) :
    findBestMatchForPhrase m phrase =
      (if (denseTier m phrase).1 < 1/2 then
        match m.tfidfMatches phrase with
        | [] => (denseTier m phrase).2
        | (topKey, topScore) :: _ =>
            if topScore > (denseTier m phrase).1 then
              some ⟨topKey, topScore, m.mappingTypeOf topKey,
                m.attributesOf topKey⟩
            else (denseTier m phrase).2
      else (denseTier m phrase).2) := by
  unfold findBestMatchForPhrase
  rw [h]

/-! Lemmas about the `find_best_matches` loop. -/

theorem mem_keysOf_of_getV_some {α : Type} (m : List (String × α))
    (k : String) (v : α) (h : getV m k = some v) : k ∈ keysOf m := by
  by_contra hk
  rw [← getV_eq_none_iff m k] at hk
  rw [h] at hk
  exact Option.noConfusion hk

theorem keysOf_setKey {α : Type} (m : List (String × α)) (k : String)
    (v : α) : keysOf (setKey m k v) =
      if k ∈ keysOf m then keysOf m else keysOf m ++ [k] := by
  induction m with
  | nil => simp [setKey, keysOf]
  | cons kv rest ih =>
      obtain ⟨k₀, v₀⟩ := kv
      by_cases h : k₀ = k
      · subst h
        rw [show setKey ((k₀, v₀) :: rest) k₀ v = (k₀, v) :: rest by
          simp [setKey]]
        simp [keysOf]
      · rw [show setKey ((k₀, v₀) :: rest) k v = (k₀, v₀) :: setKey rest k v
          by simp [setKey, h]]
        simp only [keysOf, List.map_cons] at ih ⊢
        rw [ih]
        by_cases hk : k ∈ List.map Prod.fst rest
        · rw [if_pos hk, if_pos (by simp [hk])]
        · rw [if_neg hk, if_neg (by simp [hk, Ne.symm h]), List.cons_append]

theorem mem_setKey {α : Type} (m : List (String × α)) (k : String) (v : α)
    (kv : String × α) (h : kv ∈ setKey m k v) : kv ∈ m ∨ kv = (k, v) := by
  induction m with
  | nil =>
      simp only [setKey, List.mem_singleton] at h
      exact Or.inr h
  | cons kv₀ rest ih =>
      obtain ⟨k₀, v₀⟩ := kv₀
      by_cases h₀ : k₀ = k
      · subst h₀
        rw [show setKey ((k₀, v₀) :: rest) k₀ v = (k₀, v) :: rest by
          simp [setKey]] at h
        rcases List.mem_cons.1 h with h | h
        · exact Or.inr h
        · exact Or.inl (List.mem_cons_of_mem _ h)
      · rw [show setKey ((k₀, v₀) :: rest) k v = (k₀, v₀) :: setKey rest k v
          by simp [setKey, h₀]] at h
        rcases List.mem_cons.1 h with h | h
        · exact Or.inl (h ▸ List.mem_cons_self _ _)
        · rcases ih h with h | h
          · exact Or.inl (List.mem_cons_of_mem _ h)
          · exact Or.inr h

theorem mem_keysOf_mergeStep (s : ℚ) (st : AttrMap × List (String × ℚ))
    (kv : String × Value) (k' : String) :
    k' ∈ keysOf (mergeStep s st kv).1 ↔
      k' ∈ keysOf st.1 ∨ k' = kv.1 := by
  unfold mergeStep
  rcases hg : getV st.1 kv.1 with _ | w
  · exact mem_keysOf_setKey st.1 kv.1 k' kv.2
  · by_cases hlt : (getV st.2 kv.1).getD 0 < s
    · rw [if_pos hlt]
      exact mem_keysOf_setKey st.1 kv.1 k' kv.2
    · rw [if_neg hlt]
      constructor
      · exact Or.inl
      · rintro (h | h)
        · exact h
        · subst h
          exact mem_keysOf_of_getV_some st.1 kv.1 w hg

theorem mem_keysOf_mergeMatched (s : ℚ) (attributes : AttrMap)
    (st : AttrMap × List (String × ℚ)) (k' : String) :
    k' ∈ keysOf (mergeMatched s attributes st).1 ↔
      k' ∈ keysOf st.1 ∨ k' ∈ keysOf attributes := by
  induction attributes generalizing st with
  | nil => simp [mergeMatched, keysOf]
  | cons kv rest ih =>
      have hstep : mergeMatched s (kv :: rest) st =
          mergeMatched s rest (mergeStep s st kv) := by
        simp [mergeMatched]
      rw [hstep, ih, mem_keysOf_mergeStep]
      simp only [keysOf, List.map_cons, List.mem_cons]
      tauto

theorem mergeStep_inv (s t : ℚ) (st : AttrMap × List (String × ℚ))
    (kv : String × Value) (hks : keysOf st.1 = keysOf st.2)
    (hge : ∀ p ∈ st.2, t ≤ p.2) (hts : t ≤ s) :
    keysOf (mergeStep s st kv).1 = keysOf (mergeStep s st kv).2 ∧
    ∀ p ∈ (mergeStep s st kv).2, t ≤ p.2 := by
  unfold mergeStep
  rcases hg : getV st.1 kv.1 with _ | w
  · constructor
    · have hnot : kv.1 ∉ keysOf st.1 := (getV_eq_none_iff _ _).1 hg
      rw [keysOf_setKey, keysOf_setKey, if_neg hnot,
        if_neg (hks ▸ hnot), hks]
    · intro p hp
      rcases mem_setKey st.2 kv.1 s p hp with h | h
      · exact hge p h
      · subst h; exact hts
  · by_cases hlt : (getV st.2 kv.1).getD 0 < s
    · rw [if_pos hlt]
      constructor
      · have hmem : kv.1 ∈ keysOf st.1 := mem_keysOf_of_getV_some _ _ w hg
        rw [keysOf_setKey, keysOf_setKey, if_pos hmem,
          if_pos (hks ▸ hmem), hks]
      · intro p hp
        rcases mem_setKey st.2 kv.1 s p hp with h | h
        · exact hge p h
        · subst h; exact hts
    · rw [if_neg hlt]
      exact ⟨hks, hge⟩

theorem mergeMatched_inv (s t : ℚ) (attributes : AttrMap)
    (st : AttrMap × List (String × ℚ)) (hks : keysOf st.1 = keysOf st.2)
    (hge : ∀ p ∈ st.2, t ≤ p.2) (hts : t ≤ s) :
    keysOf (mergeMatched s attributes st).1 =
      keysOf (mergeMatched s attributes st).2 ∧
    ∀ p ∈ (mergeMatched s attributes st).2, t ≤ p.2 := by
  induction attributes generalizing st with
  | nil => exact ⟨hks, hge⟩
  | cons kv rest ih =>
      have hstep : mergeMatched s (kv :: rest) st =
          mergeMatched s rest (mergeStep s st kv) := by
        simp [mergeMatched]
      rw [hstep]
      obtain ⟨h₁, h₂⟩ := mergeStep_inv s t st kv hks hge hts
      exact ih _ h₁ h₂

theorem mergeMatched_snd_ne_nil (s : ℚ) (attributes : AttrMap)
    (st : AttrMap × List (String × ℚ)) (h : st.2 ≠ []) :
    (mergeMatched s attributes st).2 ≠ [] := by
  induction attributes generalizing st with
  | nil => exact h
  | cons kv rest ih =>
      have hstep : mergeMatched s (kv :: rest) st =
          mergeMatched s rest (mergeStep s st kv) := by
        simp [mergeMatched]
      rw [hstep]
      refine ih _ ?_
      unfold mergeStep
      rcases hg : getV st.1 kv.1 with _ | w
      · intro hnil
        rcases hs : st.2 with _ | ⟨p, ps⟩
        · exact h hs
        · rw [hs] at hnil
          obtain ⟨p₁, p₂⟩ := p
          by_cases hk : p₁ = kv.1 <;> simp [setKey, hk] at hnil
      · by_cases hlt : (getV st.2 kv.1).getD 0 < s
        · rw [if_pos hlt]
          intro hnil
          rcases hs : st.2 with _ | ⟨p, ps⟩
          · exact h hs
          · rw [hs] at hnil
            obtain ⟨p₁, p₂⟩ := p
            by_cases hk : p₁ = kv.1 <;> simp [setKey, hk] at hnil
        · rw [if_neg hlt]
          exact h

theorem processCandidate_inv (m : Matcher) (t : ℚ) (A : Prop)
    (st : AttrMap × List (String × ℚ)) (c : String)
    (hst : MatchInv t A st)
    (hA : validCandidate c = true →
      ∀ r, findBestMatchForPhrase m c = some r → t ≤ r.score → A) :
    MatchInv t A (processCandidate m t st c) := by
  obtain ⟨hks, hge, hacc⟩ := hst
  unfold processCandidate
  by_cases hv : validCandidate c
  · rw [if_neg (by simp [hv])]
    rcases hm : findBestMatchForPhrase m c with _ | r
    · exact ⟨hks, hge, hacc⟩
    · dsimp only
      by_cases hs : r.score ≥ t
      · rw [if_pos hs]
        have hA' : A := hA hv r hm hs
        obtain ⟨h₁, h₂⟩ := mergeMatched_inv r.score t r.attributes st hks
          hge hs
        exact ⟨h₁, h₂, fun _ => hA'⟩
      · rw [if_neg hs]
        exact ⟨hks, hge, hacc⟩
  · rw [if_pos (by simp [hv])]
    exact ⟨hks, hge, hacc⟩

theorem foldl_processCandidate_inv (m : Matcher) (t : ℚ) (A : Prop)
    (l : List String)
    (hl : ∀ c ∈ l, validCandidate c = true →
      ∀ r, findBestMatchForPhrase m c = some r → t ≤ r.score → A)
    (st : AttrMap × List (String × ℚ)) (hst : MatchInv t A st) :
    MatchInv t A (l.foldl (processCandidate m t) st) := by
  induction l generalizing st with
  | nil => exact hst
  | cons c rest ih =>
      rw [List.foldl_cons]
      exact ih (fun c' hc' => hl c' (List.mem_cons_of_mem _ hc'))
        (processCandidate m t st c)
        (processCandidate_inv m t A st c hst
          (hl c (List.mem_cons_self _ _)))

theorem findBestMatches_inv (m : Matcher) (t : ℚ)
    (phrases : List String) (attrs : AttrMap) :
    MatchInv t (acceptedMatchExists m t phrases attrs)
      ((findBestMatches m t phrases attrs).matchedAttributes,
       (findBestMatches m t phrases attrs).confidenceScores) := by
  have h := foldl_processCandidate_inv m t
    (acceptedMatchExists m t phrases attrs)
    (candidatesOf phrases attrs)
    (fun c hc hv r hm hs => ⟨c, hc, hv, r, hm, hs⟩)
    ([], []) ⟨rfl, by simp, by simp⟩
  exact h

theorem processCandidate_keys_mono (m : Matcher) (t₁ t₂ : ℚ)
    (h12 : t₁ ≤ t₂) (st₁ st₂ : AttrMap × List (String × ℚ)) (c : String)
    (hsub : ∀ k, k ∈ keysOf st₂.1 → k ∈ keysOf st₁.1) :
    ∀ k, k ∈ keysOf (processCandidate m t₂ st₂ c).1 →
      k ∈ keysOf (processCandidate m t₁ st₁ c).1 := by
  unfold processCandidate
  by_cases hv : validCandidate c
  · rw [if_neg (by simp [hv]), if_neg (by simp [hv])]
    rcases hm : findBestMatchForPhrase m c with _ | r
    · exact hsub
    · dsimp only
      by_cases hs₂ : r.score ≥ t₂
      · have hs₁ : r.score ≥ t₁ := le_trans h12 hs₂
        rw [if_pos hs₂, if_pos hs₁]
        intro k hk
        rw [mem_keysOf_mergeMatched] at hk ⊢
        rcases hk with hk | hk
        · exact Or.inl (hsub k hk)
        · exact Or.inr hk
      · rw [if_neg hs₂]
        by_cases hs₁ : r.score ≥ t₁
        · rw [if_pos hs₁]
          intro k hk
          rw [mem_keysOf_mergeMatched]
          exact Or.inl (hsub k hk)
        · rw [if_neg hs₁]
          exact hsub
  · rw [if_pos (by simp [hv]), if_pos (by simp [hv])]
    exact hsub

theorem foldl_processCandidate_keys_mono (m : Matcher) (t₁ t₂ : ℚ)
    (h12 : t₁ ≤ t₂) (l : List String)
    (st₁ st₂ : AttrMap × List (String × ℚ))
    (hsub : ∀ k, k ∈ keysOf st₂.1 → k ∈ keysOf st₁.1) :
    ∀ k, k ∈ keysOf (l.foldl (processCandidate m t₂) st₂).1 →
      k ∈ keysOf (l.foldl (processCandidate m t₁) st₁).1 := by
  induction l generalizing st₁ st₂ with
  | nil => exact hsub
  | cons c rest ih =>
      rw [List.foldl_cons, List.foldl_cons]
      exact ih (processCandidate m t₁ st₁ c) (processCandidate m t₂ st₂ c)
        (processCandidate_keys_mono m t₁ t₂ h12 st₁ st₂ c hsub)

/-! Lemmas about `_validate_attributes`. -/

theorem getV_validateStep_ne (va : List String) (acc : AttrMap)
    (kv : String × Value) (k : String) (h : kv.1 ≠ k) :
    getV (validateStep va acc kv) k = getV acc k := by
  unfold validateStep
  dsimp only
  repeat' split
  all_goals first
    | rfl
    | exact getV_setKey_ne acc k kv.1 _ h

theorem getV_validateStep_self (va : List String) (acc : AttrMap)
    (k : String) (v : Value) :
    getV (validateStep va acc (k, v)) k =
      match validateEntrySpec va k (some v) with
      | some w => some w
      | none => getV acc k := by
  unfold validateStep validateEntrySpec
  dsimp only
  by_cases h₁ : toLowerStr k ≠ "category" ∧ toLowerStr k ∉ va
  · rw [if_pos h₁, if_pos h₁]
  · rw [if_neg h₁, if_neg h₁]
    rcases htab : getV validValues (toLowerStr k) with _ | table
    · exact getV_setKey_self acc k v
    · dsimp only
      rcases v with s | q | items | b | _
      · dsimp only
        by_cases hs : s ∈ table
        · rw [if_pos hs, if_pos hs]
          exact getV_setKey_self acc k (.str s)
        · rw [if_neg hs, if_neg hs]
      · rfl
      · dsimp only
        by_cases hi : ¬ (items.filter (fun item => item ∈ table)).isEmpty
        · rw [if_pos hi, if_pos hi]
          exact getV_setKey_self acc k _
        · rw [if_neg hi, if_neg hi]
      · rfl
      · rfl

theorem getV_foldl_validateStep (va : List String) (attrs : AttrMap)
    (hnd : NodupKeys attrs) (acc : AttrMap) (k : String) :
    getV (attrs.foldl (validateStep va) acc) k =
      match validateEntrySpec va k (getV attrs k) with
      | some w => some w
      | none => getV acc k := by
  induction attrs generalizing acc with
  | nil => rfl
  | cons kv rest ih =>
      obtain ⟨k₀, v₀⟩ := kv
      have hrest : NodupKeys rest := by
        simpa [NodupKeys, keysOf] using (List.nodup_cons.1 hnd).2
      rw [List.foldl_cons, ih hrest]
      by_cases hk : k₀ = k
      · subst hk
        have hnone : getV rest k₀ = none := by
          rw [getV_eq_none_iff]
          have := (List.nodup_cons.1 hnd).1
          simpa [keysOf] using this
        rw [hnone,
          show getV ((k₀, v₀) :: rest) k₀ = some v₀ by simp [getV]]
        show getV (validateStep va acc (k₀, v₀)) k₀ = _
        exact getV_validateStep_self va acc k₀ v₀
      · rw [show getV ((k₀, v₀) :: rest) k = getV rest k by
          simp [getV, hk]]
        rcases hspec : validateEntrySpec va k (getV rest k) with _ | w
        · exact getV_validateStep_ne va acc (k₀, v₀) k hk
        · rfl

theorem mem_keysOf_validateStep (va : List String) (acc : AttrMap)
    (kv : String × Value) (k : String)
    (h : k ∈ keysOf (validateStep va acc kv)) :
    k ∈ keysOf acc ∨
      (k = kv.1 ∧ (toLowerStr kv.1 = "category" ∨ toLowerStr kv.1 ∈ va)) := by
  unfold validateStep at h
  dsimp only at h
  by_cases h₁ : toLowerStr kv.1 ≠ "category" ∧ toLowerStr kv.1 ∉ va
  · rw [if_pos h₁] at h
    exact Or.inl h
  · have hcond : toLowerStr kv.1 = "category" ∨ toLowerStr kv.1 ∈ va := by
      push_neg at h₁
      by_cases hc : toLowerStr kv.1 = "category"
      · exact Or.inl hc
      · exact Or.inr (h₁ hc)
    rw [if_neg (by tauto)] at h
    have hsetKey : ∀ (w : Value), k ∈ keysOf (setKey acc kv.1 w) →
        k ∈ keysOf acc ∨ (k = kv.1 ∧ _) := fun w hw =>
      (mem_keysOf_setKey acc kv.1 k w).1 hw |>.imp id (fun he => ⟨he, hcond⟩)
    revert h
    repeat' split
    all_goals intro h
    all_goals first
      | exact Or.inl h
      | exact ((mem_keysOf_setKey acc kv.1 k _).1 h).imp id
          (fun he => ⟨he, hcond⟩)

theorem mem_keysOf_foldl_validateStep (va : List String) (attrs : AttrMap)
    (acc : AttrMap) (k : String)
    (h : k ∈ keysOf (attrs.foldl (validateStep va) acc)) :
    k ∈ keysOf acc ∨
      (toLowerStr k = "category" ∨ toLowerStr k ∈ va) := by
  induction attrs generalizing acc with
  | nil => exact Or.inl h
  | cons kv rest ih =>
      rw [List.foldl_cons] at h
      rcases ih (validateStep va acc kv) h with h' | h'
      · rcases mem_keysOf_validateStep va acc kv k h' with h'' | ⟨he, hc⟩
        · exact Or.inl h''
        · subst he
          exact Or.inr hc
      · exact Or.inr h'

theorem size_budget_not_allowed (cat : String) :
    "size" ∉ (getV categoryAttributes cat).getD [] ∧
    "budget" ∉ (getV categoryAttributes cat).getD [] := by
  rcases h : getV categoryAttributes cat with _ | table
  · simp
  · have hmem := getV_mem categoryAttributes cat table h
    simp only [categoryAttributes, List.mem_cons, List.not_mem_nil,
      or_false] at hmem
    rcases hmem with h' | h' | h' | h' <;>
      · rw [Prod.mk.injEq] at h'
        rw [h'.2]
        exact ⟨by decide, by decide⟩

/-! Claim theorems for fusion and the completeness state machine. -/

/-- Claim C1.  Fusion resolves every key by the strict priority ladder
`userPreference > ruleBased > inferred > extracted`, independent of any
confidence score: each tier contributes its value for a key exactly when
that value is non-empty/non-null (truthy), and an empty or null value
never overwrites a populated key — the merged value at a key is the
highest-priority truthy candidate.  In particular
extracted=\x7bsize:"M"\x7d, userPreference=\x7bsize:"L"\x7d resolves size
to "L" (see the witness). -/
theorem C1_fusion_priority_ladder (extracted ruleBased gptInferred
    userPrefs : AttrMap) (he : NodupKeys extracted)
    (hr : NodupKeys ruleBased) (hg : NodupKeys gptInferred)
    (hu : NodupKeys userPrefs) (k : String) :
    getV (mergeAllAttributes extracted ruleBased gptInferred userPrefs) k =
      priorityResolve extracted ruleBased gptInferred userPrefs k :=
  getV_mergeAllAttributes extracted ruleBased gptInferred userPrefs
    he hg hr hu k

/-- Witness for C1 at the claim's own example: extracted supplies
size="M", user preference supplies size="L", and fusion resolves size to
"L". -/
theorem C1_fusion_priority_ladder_witness :
    getV (mergeAllAttributes [("size", Value.str "M")] [] []
      [("size", Value.str "L")]) "size" = some (Value.str "L") := by
  have h := C1_fusion_priority_ladder [("size", Value.str "M")] [] []
    [("size", Value.str "L")] (by decide) (by decide) (by decide)
    (by decide) "size"
  rw [h]
  decide

/-- Claim C9.  Invariant of the resolved attribute set: every key present in
the fused output maps to a truthy (non-empty) value; no falsy candidate
from any source tier is ever entered. -/
theorem C9_fused_values_truthy (extracted ruleBased gptInferred userPrefs :
    AttrMap) (k : String) (v : Value)
    (h : getV (mergeAllAttributes extracted ruleBased gptInferred
      userPrefs) k = some v) : truthy v = true := by
  have hall : ∀ kv ∈ mergeAllAttributes extracted ruleBased gptInferred
      userPrefs, truthy kv.2 = true := by
    unfold mergeAllAttributes
    refine applyTruthy_all_truthy _ _ ?_
    refine applyTruthy_all_truthy _ _ ?_
    refine applyTruthy_all_truthy _ _ ?_
    refine applyTruthy_all_truthy _ _ ?_
    intro kv hkv
    simp at hkv
  exact hall (k, v) (getV_mem _ k v h)

/-- Witness for C9: a concrete fusion run whose output value at
"category" is truthy. -/
theorem C9_fused_values_truthy_witness :
    truthy (Value.str "dress") = true :=
  C9_fused_values_truthy [("category", Value.str "dress")] [] [] []
    "category" (Value.str "dress") (by decide)

/-- Claim C3.  The completeness check lists individually each critical
attribute among category, size and budget that is absent or falsy;
when the three critical keys are present it appends the synthetic marker
"occasion or style" exactly when no context attribute among occasion,
season, style, fit is present with a truthy value; and the turn forwards
the resolved set to catalog filtering (state READY) if and only if the
missing list is empty. -/
theorem C3_completeness_check (m : AttrMap) :
    checkMissingAttributes m = criticalMissingSpec m ++ contextMarkerSpec m ∧
    ((resolveTurn m).forwardedToCatalog = true ↔
      checkMissingAttributes m = []) := by
  refine ⟨checkMissingAttributes_eq m, ?_⟩
  rcases hnil : checkMissingAttributes m with _ | ⟨a, l⟩ <;>
    simp [resolveTurn, hnil]

/-- Claim C8.  On a non-empty missing list the system generates exactly one
question per missing key from the fixed template table (the compound
"occasion or style" marker using its combined template), returns the full
ordered list as `suggested_questions`, and surfaces the first generated
question as the primary message. -/
theorem C8_follow_up_questions (m : AttrMap)
    (hne : checkMissingAttributes m ≠ []) :
    (resolveTurn m).suggestedQuestions =
      (checkMissingAttributes m).map templateFor ∧
    (resolveTurn m).message =
      some (templateFor ((checkMissingAttributes m).headD "")) ∧
    (resolveTurn m).missingAttributes = checkMissingAttributes m := by
  have hmap : generateFollowUpQuestions (checkMissingAttributes m) =
      (checkMissingAttributes m).map templateFor :=
    generateFollowUpQuestions_eq_map _
      (fun x hx => mem_checkMissingAttributes m x hx)
  rcases h : checkMissingAttributes m with _ | ⟨a, l⟩
  · exact absurd h hne
  · rw [h] at hmap
    simp [resolveTurn, h, hmap]

/-- Witness for C8 at the claim's example: resolved set
category="dress", size="M" with no budget has missing list ["budget"]
and surfaces the budget template first. -/
theorem C8_follow_up_questions_witness :
    checkMissingAttributes [("category", Value.str "dress"),
      ("size", Value.str "M")] ≠ [] ∧
    ((resolveTurn [("category", Value.str "dress"),
      ("size", Value.str "M")]).suggestedQuestions =
      (checkMissingAttributes [("category", Value.str "dress"),
        ("size", Value.str "M")]).map templateFor ∧
    (resolveTurn [("category", Value.str "dress"),
      ("size", Value.str "M")]).message =
      some (templateFor ((checkMissingAttributes
        [("category", Value.str "dress"),
         ("size", Value.str "M")]).headD "")) ∧
    (resolveTurn [("category", Value.str "dress"),
      ("size", Value.str "M")]).missingAttributes =
      checkMissingAttributes [("category", Value.str "dress"),
        ("size", Value.str "M")]) :=
  ⟨by decide, C8_follow_up_questions [("category", Value.str "dress"),
    ("size", Value.str "M")] (by decide)⟩

/-- Claim C4 counterexample: fusion does not drop an unparsable budget
candidate.  With extracted budget "cheap" (which `float` cannot parse),
the fused output still contains budget="cheap". -/
theorem C4_counterexample_fusion_keeps_unparsable_budget :
    getV (mergeAllAttributes [("budget", Value.str "cheap")] [] [] [])
      "budget" = some (Value.str "cheap") ∧
    pyFloat (Value.str "cheap") = none := by
  constructor
  · decide
  · rfl

/-- Claim C4 as amended.  Numeric coercion failures are indeed non-fatal, but
the unparsable budget is not dropped by fusion: fusion performs no
numeric parsing and retains the truthy candidate, and it is the catalog
budget filter that, failing to parse the value, silently skips the
budget comparison and leaves the rows untouched instead of raising. -/
theorem C4_amended_unparsable_budget_nonfatal (v : Value)
    (hp : pyFloat v = none) (ht : truthy v = true) (attrs : AttrMap)
    (rows : List Product) (hv : getV attrs "budget" = some v)
    (e r g : AttrMap) (he : NodupKeys e) (hr : NodupKeys r)
    (hg : NodupKeys g) :
    applyBudgetFilter attrs rows = rows ∧
    getV (mergeAllAttributes e r g [("budget", v)]) "budget" = some v := by
  constructor
  · unfold applyBudgetFilter
    rw [hv]
    dsimp only
    rw [if_pos ht, hp]
  · rw [getV_mergeAllAttributes e r g [("budget", v)] he hg hr
      (by simp [NodupKeys, keysOf])]
    unfold priorityResolve
    rw [show truthyLookup [("budget", v)] "budget" = some v by
      simp [truthyLookup, getV, ht]]

/-- Witness for C4's amended statement at budget="cheap". -/
theorem C4_amended_unparsable_budget_nonfatal_witness :
    pyFloat (Value.str "cheap") = none ∧
    truthy (Value.str "cheap") = true ∧
    getV [("budget", Value.str "cheap")] "budget" =
      some (Value.str "cheap") ∧
    (applyBudgetFilter [("budget", Value.str "cheap")]
      [⟨10⟩, ⟨200⟩] = [⟨10⟩, ⟨200⟩] ∧
    getV (mergeAllAttributes [] [] [] [("budget", Value.str "cheap")])
      "budget" = some (Value.str "cheap")) :=
  ⟨rfl, by decide, by decide,
    C4_amended_unparsable_budget_nonfatal (Value.str "cheap") rfl
      (by decide) [("budget", Value.str "cheap")] [⟨10⟩, ⟨200⟩]
      (by decide) [] [] [] (by decide) (by decide) (by decide)⟩

/-- Claim C2.  Single-phrase matching follows the strict tier order.  (1) When
the lowered, stripped phrase equals some vibe key case-insensitively, the
matcher returns that key with score exactly 1.0 and that key's
attributes, whatever the dense and sparse scoring functions are — no
other tier can change the result; (2) any casing variant of a loaded
vibe key produces such an exact hit; (3) otherwise the dense tier scores
every vibe key and tracks the maximum (seeded with 0), the TF-IDF tier is
consulted only when that maximum is below 0.5 and supersedes only when
its top score strictly exceeds it, and any returned score is the maximum
over the tiers that ran. -/
theorem C2_single_phrase_tier_order (m : Matcher) (phrase : String) :
    (∀ k, exactFind m.allVibeKeys (trimStr (toLowerStr phrase)) = some k →
      trimStr (toLowerStr phrase) = toLowerStr k ∧
      ∀ d t, findBestMatchForPhrase
          { m with denseSim := d, tfidfMatches := t } phrase =
        some ⟨k, 1, m.mappingTypeOf k, m.attributesOf k⟩) ∧
    (∀ k ∈ m.allVibeKeys, trimStr (toLowerStr phrase) = toLowerStr k →
      ∃ k', exactFind m.allVibeKeys (trimStr (toLowerStr phrase)) =
        some k') ∧
    (exactFind m.allVibeKeys (trimStr (toLowerStr phrase)) = none →
      (m.nlpAvailable = true →
        (denseTier m phrase).1 =
          (m.allVibeKeys.map (m.denseSim phrase)).foldl max 0) ∧
      (¬ (denseTier m phrase).1 < 1/2 →
        findBestMatchForPhrase m phrase = (denseTier m phrase).2) ∧
      ((denseTier m phrase).1 < 1/2 →
        (m.tfidfMatches phrase = [] →
          findBestMatchForPhrase m phrase = (denseTier m phrase).2) ∧
        ∀ tk ts rest, m.tfidfMatches phrase = (tk, ts) :: rest →
          (ts > (denseTier m phrase).1 →
            findBestMatchForPhrase m phrase =
              some ⟨tk, ts, m.mappingTypeOf tk, m.attributesOf tk⟩) ∧
          (¬ ts > (denseTier m phrase).1 →
            findBestMatchForPhrase m phrase = (denseTier m phrase).2)) ∧
      (∀ r, findBestMatchForPhrase m phrase = some r →
        (denseTier m phrase).1 ≤ r.score ∧
        (r.score = (denseTier m phrase).1 ∨
          ∃ tk ts rest, m.tfidfMatches phrase = (tk, ts) :: rest ∧
            (denseTier m phrase).1 < 1/2 ∧ ts > (denseTier m phrase).1 ∧
            r.score = ts))) := by
  refine ⟨?_, ?_, ?_⟩
  · intro k hk
    refine ⟨(exactFind_some _ _ _ hk).1, ?_⟩
    intro d t
    exact findBest_exact_unfold
      { m with denseSim := d, tfidfMatches := t } phrase k hk
  · intro k hk hp
    exact exactFind_exists m.allVibeKeys _ k hk hp
  · intro hnone
    refine ⟨?_, ?_, ?_, ?_⟩
    · intro hn
      unfold denseTier
      rw [if_pos hn]
      exact denseStep_fold_fst m phrase m.allVibeKeys (0, none)
    · intro hge
      rw [findBest_none_unfold m phrase hnone, if_neg hge]
    · intro hlt
      constructor
      · intro htf
        rw [findBest_none_unfold m phrase hnone, if_pos hlt, htf]
      · intro tk ts rest htf
        constructor
        · intro hgt
          rw [findBest_none_unfold m phrase hnone, if_pos hlt, htf]
          dsimp only
          rw [if_pos hgt]
        · intro hng
          rw [findBest_none_unfold m phrase hnone, if_pos hlt, htf]
          dsimp only
          rw [if_neg hng]
    · intro r hr
      rw [findBest_none_unfold m phrase hnone] at hr
      by_cases hlt : (denseTier m phrase).1 < 1/2
      · rw [if_pos hlt] at hr
        rcases htf : m.tfidfMatches phrase with _ | ⟨⟨tk, ts⟩, rest⟩
        · rw [htf] at hr
          have := denseTier_score_eq m phrase r hr
          exact ⟨this ▸ le_refl _, Or.inl this⟩
        · rw [htf] at hr
          dsimp only at hr
          by_cases hgt : ts > (denseTier m phrase).1
          · rw [if_pos hgt] at hr
            injection hr with hr
            subst hr
            exact ⟨hgt.le, Or.inr ⟨tk, ts, rest, rfl, hlt, hgt, rfl⟩⟩
          · rw [if_neg hgt] at hr
            have := denseTier_score_eq m phrase r hr
            exact ⟨this ▸ le_refl _, Or.inl this⟩
      · rw [if_neg hlt] at hr
        have := denseTier_score_eq m phrase r hr
        exact ⟨this ▸ le_refl _, Or.inl this⟩

/-- Witness for C2: a one-key matcher and the casing variant
"Summer Brunch" of the key "summer brunch" produce the exact-tier result
with score 1.0 and the key's attributes, under dense and sparse scoring
functions chosen adversarially (dense 0.9, sparse top 2). -/
theorem C2_single_phrase_tier_order_witness :
    findBestMatchForPhrase
      { allVibeKeys := ["summer brunch"],
        mappingTypeOf := fun _ => "vibes",
        attributesOf := fun _ => [("occasion", Value.str "brunch")],
        nlpAvailable := true,
        denseSim := fun _ _ => (9 : ℚ)/10,
        tfidfMatches := fun _ => [("other", 2)] } "Summer Brunch" =
      some ⟨"summer brunch", 1, "vibes",
        [("occasion", Value.str "brunch")]⟩ :=
  ((C2_single_phrase_tier_order
      { allVibeKeys := ["summer brunch"],
        mappingTypeOf := fun _ => "vibes",
        attributesOf := fun _ => [("occasion", Value.str "brunch")],
        nlpAvailable := true,
        denseSim := fun _ _ => 0,
        tfidfMatches := fun _ => [] } "Summer Brunch").1
    "summer brunch" (by decide)).2 (fun _ _ => (9 : ℚ)/10)
    (fun _ => [("other", 2)])

/-- Claim C5.  Threshold monotonicity: for a fixed matcher and candidate set,
every attribute key accepted by `find_best_matches` at a higher threshold
is also accepted at any lower threshold, so raising the threshold never
increases the set of accepted attributes. -/
theorem C5_threshold_monotonicity (m : Matcher) (phrases : List String)
    (attrs : AttrMap) (t₁ t₂ : ℚ) (h12 : t₁ ≤ t₂) (k : String)
    (hk : k ∈ keysOf
      (findBestMatches m t₂ phrases attrs).matchedAttributes) :
    k ∈ keysOf (findBestMatches m t₁ phrases attrs).matchedAttributes := by
  have h := foldl_processCandidate_keys_mono m t₁ t₂ h12
    (candidatesOf phrases attrs) ([], []) ([], []) (fun k hk => hk) k
  exact h hk

/-- Witness for C5: a one-key matcher where the exact match "casual"
(score 1) is accepted at both thresholds 1 and 0, so every key accepted
at the higher threshold is accepted at the lower one. -/
theorem C5_threshold_monotonicity_witness :
    ((0 : ℚ) ≤ 1) ∧
    ("style" ∈ keysOf (findBestMatches
      { allVibeKeys := ["casual"],
        mappingTypeOf := fun _ => "vibes",
        attributesOf := fun _ => [("style", Value.str "casual")],
        nlpAvailable := false,
        denseSim := fun _ _ => 0,
        tfidfMatches := fun _ => [] } 1 ["casual"]
        []).matchedAttributes) ∧
    "style" ∈ keysOf (findBestMatches
      { allVibeKeys := ["casual"],
        mappingTypeOf := fun _ => "vibes",
        attributesOf := fun _ => [("style", Value.str "casual")],
        nlpAvailable := false,
        denseSim := fun _ _ => 0,
        tfidfMatches := fun _ => [] } 0 ["casual"]
        []).matchedAttributes :=
  ⟨by norm_num, by decide,
    C5_threshold_monotonicity
      { allVibeKeys := ["casual"],
        mappingTypeOf := fun _ => "vibes",
        attributesOf := fun _ => [("style", Value.str "casual")],
        nlpAvailable := false,
        denseSim := fun _ _ => 0,
        tfidfMatches := fun _ => [] } ["casual"] [] 0 1
      (by norm_num) "style" (by decide)⟩

/-- Claim C6.  The GPT inference oracle is invoked if and only if similarity
matching produced no match scoring at or above the acceptance threshold,
or fewer than 3 distinct attributes were resolved by rule-based
matching. -/
theorem C6_gpt_invocation_iff (m : Matcher) (t : ℚ)
    (phrases : List String) (attrs : AttrMap) :
    gptInvoked (findBestMatches m t phrases attrs) = true ↔
      (¬ acceptedMatchExists m t phrases attrs ∨
        (findBestMatches m t phrases attrs).matchedAttributes.length < 3) := by
  obtain ⟨hkeys, hge, hacc⟩ := findBestMatches_inv m t phrases attrs
  have hhigh : (findBestMatches m t phrases attrs).hasHighConfidenceMatches
      = (findBestMatches m t phrases attrs).confidenceScores.any
        (fun kv => kv.2 ≥ t) := rfl
  constructor
  · intro h
    simp only [gptInvoked, Bool.or_eq_true, Bool.not_eq_true',
      decide_eq_true_eq] at h
    rcases h with h | h
    · have hfalse : (findBestMatches m t phrases
          attrs).confidenceScores.any (fun kv => kv.2 ≥ t) = false := by
        rw [← hhigh]
        exact h
      rcases hc : (findBestMatches m t phrases attrs).confidenceScores
        with _ | ⟨kv, rest⟩
      · right
        have hkeysnil : keysOf (findBestMatches m t phrases
            attrs).matchedAttributes = [] := by
          rw [hkeys, hc]
          rfl
        have : (findBestMatches m t phrases attrs).matchedAttributes = [] := by
          have := congrArg List.length hkeysnil
          simpa [keysOf] using this
        rw [this]
        simp
      · exfalso
        have hmem : kv ∈ (findBestMatches m t phrases
            attrs).confidenceScores := by
          rw [hc]; exact List.mem_cons_self _ _
        have := hge kv hmem
        have hany : (findBestMatches m t phrases
            attrs).confidenceScores.any (fun kv => kv.2 ≥ t) = true :=
          List.any_eq_true.2 ⟨kv, hmem, by simpa using this⟩
        rw [hany] at hfalse
        exact Bool.noConfusion hfalse
    · right
      simpa using h
  · intro h
    rcases h with h | h
    · have hc : (findBestMatches m t phrases attrs).confidenceScores = [] := by
        by_contra hne
        exact h (hacc hne)
      have : (findBestMatches m t phrases attrs).hasHighConfidenceMatches
          = false := by
        rw [hhigh, hc]
        rfl
      simp [gptInvoked, this]
    · simp [gptInvoked, h]

/-- Claim C7.  Oracle-output validation: for every attribute dictionary the
oracle returns, an entry survives exactly as the per-entry rule says —
kept only if its lowered key is "category" or on the active category's
allowed-attribute list; filtered value-by-value against the bounded
valid-values table when one exists for the key (a list value keeps only
listed items and is dropped if none survive, a scalar survives only if
listed); passed through unchanged when no bounded table exists. -/
theorem C7_oracle_validation (attrs out : AttrMap)
    (h : validateAttributes attrs = some out) (hnd : NodupKeys attrs) :
    ∃ c, activeCategory attrs = some c ∧
      ∀ k, getV out k =
        validateEntrySpec ((getV categoryAttributes c).getD []) k
          (getV attrs k) := by
  unfold validateAttributes at h
  rcases hc : activeCategory attrs with _ | c
  · rw [hc] at h
    simp at h
  · rw [hc] at h
    dsimp only at h
    injection h with h
    refine ⟨c, rfl, fun k => ?_⟩
    rw [← h, getV_foldl_validateStep ((getV categoryAttributes c).getD [])
      attrs hnd [] k]
    rcases hspec : validateEntrySpec ((getV categoryAttributes c).getD [])
        k (getV attrs k) with _ | w
    · rfl
    · rfl

/-- Witness for C7: on the oracle output category="dress", size="M",
fit="Relaxed" the validated dictionary keeps category and fit, and the
value at "fit" equals the per-entry specification's verdict. -/
theorem C7_oracle_validation_witness :
    getV [("category", Value.str "dress"), ("fit", Value.str "Relaxed")]
      "fit" =
    validateEntrySpec ((getV categoryAttributes "dress").getD []) "fit"
      (getV [("category", Value.str "dress"), ("size", Value.str "M"),
        ("fit", Value.str "Relaxed")] "fit") := by
  obtain ⟨c, hc, hk⟩ := C7_oracle_validation
    [("category", Value.str "dress"), ("size", Value.str "M"),
      ("fit", Value.str "Relaxed")]
    [("category", Value.str "dress"), ("fit", Value.str "Relaxed")]
    (by decide) (by decide)
  have hcat : activeCategory [("category", Value.str "dress"),
      ("size", Value.str "M"), ("fit", Value.str "Relaxed")] =
      some "dress" := by decide
  rw [hcat] at hc
  injection hc with hc
  subst hc
  exact hk "fit"

/-- Claim C10 counterexample: the critical attribute size does not enter the
resolved set only from extraction or user preference.  With empty
extraction and empty user preferences, the oracle output
size="M" validated away to the empty dictionary, and the rule-based tier
supplying size="M", fusion still resolves size="M" — it entered from the
rule-based tier. -/
theorem C10_counterexample_rule_based_supplies_size :
    validateAttributes [("size", Value.str "M")] = some [] ∧
    getV (mergeAllAttributes [] [("size", Value.str "M")]
      ((validateAttributes [("size", Value.str "M")]).getD []) [])
      "size" = some (Value.str "M") :=
  ⟨by decide, by decide⟩

/-- Claim C10 as amended.  The validated oracle output never contains the keys
size or budget in any casing — neither key is "category" nor on any
category's allowed-attribute list — so the inferred tier can never supply
those critical attributes; a size or budget key in the resolved set can
only have entered from the extracted, rule-based, or user-preference
tiers. -/
theorem C10_amended_inferred_never_supplies_size_budget
    (attrs out : AttrMap) (h : validateAttributes attrs = some out) :
    (∀ k ∈ keysOf out, toLowerStr k ≠ "size" ∧ toLowerStr k ≠ "budget") ∧
    (∀ (e r u : AttrMap) (key : String), key = "size" ∨ key = "budget" →
      ∀ v, getV (mergeAllAttributes e r out u) key = some v →
        (∃ w, (key, w) ∈ e ∧ truthy w = true) ∨
        (∃ w, (key, w) ∈ r ∧ truthy w = true) ∨
        (∃ w, (key, w) ∈ u ∧ truthy w = true)) := by
  unfold validateAttributes at h
  rcases hc : activeCategory attrs with _ | c
  · rw [hc] at h
    simp at h
  · rw [hc] at h
    dsimp only at h
    injection h with h
    have parta : ∀ k ∈ keysOf out,
        toLowerStr k ≠ "size" ∧ toLowerStr k ≠ "budget" := by
      intro k hk
      rw [← h] at hk
      rcases mem_keysOf_foldl_validateStep
          ((getV categoryAttributes c).getD []) attrs [] k hk with h' | h'
      · simp [keysOf] at h'
      · rcases h' with h' | h'
        · rw [h']
          exact ⟨by decide, by decide⟩
        · obtain ⟨h1, h2⟩ := size_budget_not_allowed c
          constructor
          · intro heq
            rw [heq] at h'
            exact h1 h'
          · intro heq
            rw [heq] at h'
            exact h2 h'
    refine ⟨parta, ?_⟩
    intro e r u key hkey v hv
    unfold mergeAllAttributes at hv
    rcases getV_applyTruthy_source u _ key v hv with h' | h'
    · exact Or.inr (Or.inr h')
    rcases getV_applyTruthy_source r _ key v h' with h'' | h''
    · exact Or.inr (Or.inl h'')
    rcases getV_applyTruthy_source out _ key v h'' with h3 | h3
    · exfalso
      obtain ⟨w, hw, _⟩ := h3
      have hkmem : key ∈ keysOf out := by
        have := List.mem_map_of_mem Prod.fst hw
        simpa [keysOf] using this
      obtain ⟨hs, hb⟩ := parta key hkmem
      rcases hkey with hkey | hkey <;> subst hkey
      · exact hs (by decide)
      · exact hb (by decide)
    rcases getV_applyTruthy_source e [] key v h3 with h4 | h4
    · exact Or.inl h4
    · simp [getV] at h4

/-- Witness for C10's amended statement: with rule-based size="M", empty
oracle output, empty extraction and empty user preferences, fusion's
size="M" is traced to one of the three non-inferred tiers. -/
theorem C10_amended_inferred_never_supplies_size_budget_witness :
    (∃ w, ("size", w) ∈ ([] : AttrMap) ∧ truthy w = true) ∨
    (∃ w, ("size", w) ∈ ([("size", Value.str "M")] : AttrMap) ∧
      truthy w = true) ∨
    (∃ w, ("size", w) ∈ ([] : AttrMap) ∧ truthy w = true) :=
  (C10_amended_inferred_never_supplies_size_budget
      [("size", Value.str "M")] [] (by decide)).2
    [] [("size", Value.str "M")] [] "size" (Or.inl rfl) (Value.str "M")
    (by decide)

end VibeFusion
